import Mathlib

/-!
# Gilt tracker: shallow embedding and verification

A shallow embedding of the reconciliation and derived-metrics engine of
`gilt_tracker.py`: the BoE CSV feed parser, the summary statistics, the
live-quote reconciler, the scenario valuation calculator and the two
moving-average smoothers.  Calendar dates are embedded as `(year, month,
day)` triples, numeric values as exact rationals, and Python's
`round(x, 4)` as round-half-to-even at four fractional digits.
-/

namespace GiltTracker

/-- A calendar date at day resolution (the parser stores `YYYY-MM-DD`). -/
structure Date where
  year : ℕ
  month : ℕ
  day : ℕ
deriving DecidableEq, Repr

/-- Lexicographic strict order on dates; equals the order of the
`YYYY-MM-DD` strings the Python code sorts by. -/
def Date.lt (a b : Date) : Prop :=
  a.year < b.year ∨ (a.year = b.year ∧
    (a.month < b.month ∨ (a.month = b.month ∧ a.day < b.day)))

instance (a b : Date) : Decidable (Date.lt a b) := by unfold Date.lt; infer_instance

/-- Lexicographic `≤` on dates. -/
def Date.le (a b : Date) : Prop := ¬ Date.lt b a

instance (a b : Date) : Decidable (Date.le a b) := by unfold Date.le; infer_instance

/-- Gregorian leap-year test, as `calendar.isleap` / `datetime` use. -/
def isLeap (y : ℕ) : Bool := y % 4 = 0 ∧ (y % 100 ≠ 0 ∨ y % 400 = 0)

/-- Number of days in a month of a given year. -/
def daysInMonth (y m : ℕ) : ℕ :=
  if m = 2 then (if isLeap y then 29 else 28)
  else if m = 4 ∨ m = 6 ∨ m = 9 ∨ m = 11 then 30
  else 31

/-- Days from the start of the year up to the start of month `m`. -/
def daysBeforeMonth (y m : ℕ) : ℕ :=
  (List.range m).foldl (fun acc i => if 1 ≤ i then acc + daysInMonth y i else acc) 0

/-- Proleptic-Gregorian ordinal of a date (days; `0001-01-01` is day 1),
the quantity `datetime` subtraction measures day differences with. -/
def Date.toOrdinal (d : Date) : ℤ :=
  let y : ℤ := (d.year : ℤ) - 1
  365 * y + y / 4 - y / 100 + y / 400 + (daysBeforeMonth d.year d.month : ℤ) + (d.day : ℤ)

/-- One observation of the series: a date and a yield in percent. -/
structure Obs where
  date : Date
  yieldVal : ℚ
deriving DecidableEq, Repr

/-- Round-half-to-even to an integer, the behaviour of Python's `round`. -/
def halfEvenInt (q : ℚ) : ℤ :=
  let f := ⌊q⌋
  let r := q - (f : ℚ)
  if r < 1/2 then f
  else if (1:ℚ)/2 < r then f + 1
  else if f % 2 = 0 then f else f + 1

/-- Python's `round(x, 4)`: round-half-to-even at 4 fractional digits. -/
def round4 (q : ℚ) : ℚ := (halfEvenInt (q * 10000) : ℚ) / 10000

/-- Absolute day-difference between an observation's date and the target. -/
def diffDays (target : ℤ) (d : Obs) : ℕ := (d.date.toOrdinal - target).natAbs

/-- One iteration of the `find_nearest_value` loop: keep the incumbent
unless the new observation's day-difference is strictly smaller. -/
def nearestStep (target : ℤ) (best : Option (ℕ × ℚ)) (d : Obs) : Option (ℕ × ℚ) :=
  match best with
  | none => some (diffDays target d, d.yieldVal)
  | some (bestDiff, bestVal) =>
      if diffDays target d < bestDiff then some (diffDays target d, d.yieldVal)
      else some (bestDiff, bestVal)

/-- `find_nearest_value`: scan the series, keep the first observation whose
absolute day-difference to the target is strictly smaller than the best so
far, and return its yield (`None` on an empty series). -/
def find_nearest_value (points : List Obs) (target : ℤ) : Option ℚ :=
  (points.foldl (nearestStep target) none).map Prod.snd

/-- The summary statistics record built by `compute_stats`. -/
structure Stats where
  current_yield : ℚ
  current_date : Date
  previous_yield : ℚ
  daily_change : ℚ
  high_12m : ℚ
  low_12m : ℚ
  high_date : Option Date
  low_date : Option Date
  week_change : Option ℚ
  month_change : Option ℚ
  ytd_change : Option ℚ
  data_points_count : ℕ
deriving Repr

/-- Python truthiness guard `round(cur - v, 4) if v else None`: the delta is
`None` both when the lookup returned `None` and when the value is `0.0`. -/
def deltaIfTruthy (cur : ℚ) : Option ℚ → Option ℚ
  | none => none
  | some v => if v = 0 then none else some (round4 (cur - v))

/-- `compute_stats`: summary statistics of a series; `none` on an empty one
(the Python function returns `{}`). -/
def compute_stats (data_points : List Obs) : Option Stats :=
  match data_points.getLast? with
  | none => none
  | some current =>
    let yields := data_points.map (·.yieldVal)
    let previous := if data_points.length ≥ 2 then
        data_points[data_points.length - 2]?.getD current
      else current
    let curOrd := current.date.toOrdinal
    let week_ago_val := find_nearest_value data_points (curOrd - 7)
    let month_ago_val := find_nearest_value data_points (curOrd - 30)
    let ytd_start_val := find_nearest_value data_points
      (Date.toOrdinal ⟨current.date.year, 1, 1⟩)
    let maxY := yields.foldl max (yields.headD 0)
    let minY := yields.foldl min (yields.headD 0)
    some {
      current_yield := current.yieldVal
      current_date := current.date
      previous_yield := previous.yieldVal
      daily_change := round4 (current.yieldVal - previous.yieldVal)
      high_12m := round4 maxY
      low_12m := round4 minY
      high_date := (data_points.find? (fun d => d.yieldVal = maxY)).map (·.date)
      low_date := (data_points.find? (fun d => d.yieldVal = minY)).map (·.date)
      week_change := deltaIfTruthy current.yieldVal week_ago_val
      month_change := deltaIfTruthy current.yieldVal month_ago_val
      ytd_change := deltaIfTruthy current.yieldVal ytd_start_val
      data_points_count := data_points.length }

/-! ## Feed parser (`parse_boe_csv`, `parse_boe_date`)

Cells of the CSV are embedded as lists of characters (the output of
Python's `csv.reader`); `str.strip`/`str.upper` are modelled for the ASCII
text the feed contains, `float` for plain decimal literals (the exotic
`inf`/`nan`/underscore forms are not modelled), and `strptime` for the four
formats the code tries, including calendar validation. -/

/-- Python `str.strip` whitespace class (ASCII part). -/
def isWs (c : Char) : Bool :=
  c = ' ' ∨ c = '\t' ∨ c = '\n' ∨ c = '\r' ∨ c = '\x0b' ∨ c = '\x0c'

/-- `str.strip`: drop leading and trailing whitespace. -/
def strip (s : List Char) : List Char :=
  ((s.dropWhile isWs).reverse.dropWhile isWs).reverse

/-- `str.upper` on an ASCII character. -/
def upperC (c : Char) : Char :=
  if 'a' ≤ c ∧ c ≤ 'z' then Char.ofNat (c.toNat - 32) else c

/-- `str.lower` on an ASCII character. -/
def lowerC (c : Char) : Char :=
  if 'A' ≤ c ∧ c ≤ 'Z' then Char.ofNat (c.toNat + 32) else c

/-- `str.upper` on a cell. -/
def upperS (s : List Char) : List Char := s.map upperC

/-- The pattern matches at the head of the text. -/
def leadMatch : List Char → List Char → Bool
  | [], _ => true
  | _ :: _, [] => false
  | p :: ps, c :: cs => p = c && leadMatch ps cs

/-- Python's substring test `pat in s`. -/
def containsSub (s pat : List Char) : Bool :=
  leadMatch pat s || (match s with
    | [] => false
    | _ :: t => containsSub t pat)

/-- Numeric value of a list of decimal digits. -/
def digitsVal (s : List Char) : ℕ :=
  s.foldl (fun a c => 10 * a + (c.toNat - '0'.toNat)) 0

/-- `s` is one or two decimal digits whose value lies in `[lo, hi]`
(the `strptime` regexes for `%d` and `%m`). -/
def isShortNum (s : List Char) (lo hi : ℕ) : Bool :=
  (s.length = 1 ∨ s.length = 2) ∧ s.all Char.isDigit ∧
    lo ≤ digitsVal s ∧ digitsVal s ≤ hi

/-- `s` is exactly four decimal digits (the `strptime` regex for `%Y`). -/
def isYear4 (s : List Char) : Bool := s.length = 4 ∧ s.all Char.isDigit

/-- Split a cell into maximal runs separated by whitespace. -/
def splitWsCore (cur : List Char) : List Char → List (List Char)
  | [] => if cur = [] then [] else [cur.reverse]
  | c :: t =>
      if isWs c then
        if cur = [] then splitWsCore [] t else cur.reverse :: splitWsCore [] t
      else splitWsCore (c :: cur) t

/-- Whitespace tokenisation of a cell. -/
def splitWs (s : List Char) : List (List Char) := splitWsCore [] s

/-- Split a cell at every occurrence of the separator `sep`. -/
def splitSep (sep : Char) (s : List Char) : List (List Char) :=
  match s with
  | [] => [[]]
  | c :: t =>
      let rest := splitSep sep t
      if c = sep then [] :: rest
      else match rest with
        | [] => [[c]]
        | h :: r => (c :: h) :: r

/-- English month abbreviations, as `strptime`'s `%b` matches them. -/
def monthAbbrevs : List (List Char) :=
  ["jan".data, "feb".data, "mar".data, "apr".data, "may".data, "jun".data,
   "jul".data, "aug".data, "sep".data, "oct".data, "nov".data, "dec".data]

/-- Full English month names, as `strptime`'s `%B` matches them. -/
def monthNames : List (List Char) :=
  ["january".data, "february".data, "march".data, "april".data, "may".data,
   "june".data, "july".data, "august".data, "september".data, "october".data,
   "november".data, "december".data]

/-- Case-insensitive month-name lookup; months are numbered from 1. -/
def monthIndex (names : List (List Char)) (tok : List Char) : Option ℕ :=
  (names.findIdx? (fun n => n = tok.map lowerC)).map (· + 1)

/-- `datetime(year, month, day)` construction: validates the calendar date
(year at least 1, day within the month). -/
def mkValidDate (y m d : ℕ) : Option Date :=
  if 1 ≤ y ∧ 1 ≤ d ∧ d ≤ daysInMonth y m then some ⟨y, m, d⟩ else none

/-- `strptime` with format `"%d <month> %Y"` (month matched against the
given name table). -/
def parseDayNameYear (names : List (List Char)) (s : List Char) : Option Date :=
  match splitWs s with
  | [dTok, mTok, yTok] =>
      if isShortNum dTok 1 31 ∧ isYear4 yTok then
        match monthIndex names mTok with
        | some m => mkValidDate (digitsVal yTok) m (digitsVal dTok)
        | none => none
      else none
  | _ => none

/-- `strptime` with format `"%d/%m/%Y"`. -/
def parseDMY (s : List Char) : Option Date :=
  match splitSep '/' s with
  | [dTok, mTok, yTok] =>
      if isShortNum dTok 1 31 ∧ isShortNum mTok 1 12 ∧ isYear4 yTok then
        mkValidDate (digitsVal yTok) (digitsVal mTok) (digitsVal dTok)
      else none
  | _ => none

/-- `strptime` with format `"%Y-%m-%d"`. -/
def parseISO (s : List Char) : Option Date :=
  match splitSep '-' s with
  | [yTok, mTok, dTok] =>
      if isShortNum dTok 1 31 ∧ isShortNum mTok 1 12 ∧ isYear4 yTok then
        mkValidDate (digitsVal yTok) (digitsVal mTok) (digitsVal dTok)
      else none
  | _ => none

/-- `parse_boe_date`: try the four formats in order, first success wins;
`none` when all four fail (the Python code raises `ValueError`, which the
caller catches and turns into a skipped row). -/
def parse_boe_date (s : List Char) : Option Date :=
  (parseDayNameYear monthAbbrevs s).orElse fun _ =>
  (parseDayNameYear monthNames s).orElse fun _ =>
  (parseDMY s).orElse fun _ =>
  parseISO s

/-- Parse the exponent suffix of a float literal (empty, or `e`/`E`
followed by an optionally signed non-empty digit string). -/
def parseExpSuffix (s : List Char) : Option ℤ :=
  match s with
  | [] => some 0
  | c :: t =>
      if c = 'e' ∨ c = 'E' then
        let (sgn, t2) : ℤ × List Char := match t with
          | '+' :: r => (1, r)
          | '-' :: r => (-1, r)
          | r => (1, r)
        if t2 ≠ [] ∧ t2.all Char.isDigit then some (sgn * digitsVal t2) else none
      else none

/-- The discrete content of a float literal: sign, integer part,
fractional digits (value and count) and exponent. -/
structure FloatParts where
  neg : Bool
  intVal : ℕ
  fracVal : ℕ
  fracLen : ℕ
  exp : ℤ
deriving DecidableEq, Repr

/-- Lexical phase of Python `float` on a stripped cell, for plain decimal
literals: optional sign, then digits with an optional point (at least one
digit overall), then an optional exponent. -/
def parseFloatParts (s : List Char) : Option FloatParts :=
  let (neg, s1) : Bool × List Char := match s with
    | '+' :: t => (false, t)
    | '-' :: t => (true, t)
    | t => (false, t)
  let intPart := s1.takeWhile Char.isDigit
  let s2 := s1.drop intPart.length
  let (fracPart, s3) : List Char × List Char := match s2 with
    | '.' :: t => (t.takeWhile Char.isDigit, t.drop (t.takeWhile Char.isDigit).length)
    | t => ([], t)
  if intPart = [] ∧ fracPart = [] then none
  else (parseExpSuffix s3).map
    (fun e => ⟨neg, digitsVal intPart, digitsVal fracPart, fracPart.length, e⟩)

/-- The exact rational value of a parsed float literal. -/
def partsToQ (p : FloatParts) : ℚ :=
  (if p.neg then -1 else 1) *
    ((p.intVal : ℚ) + (p.fracVal : ℚ) / 10 ^ p.fracLen) * (10 : ℚ) ^ p.exp

/-- Python `float` on a stripped cell, kept exact in `ℚ` (the exotic
`inf`/`nan`/underscore literal forms are not modelled). -/
def parseFloatQ (s : List Char) : Option ℚ := (parseFloatParts s).map partsToQ

/-- The fixed series identifier `IUDMNZC`. -/
def seriesCode : List Char := "IUDMNZC".data

/-- State of the `parse_boe_csv` row loop. -/
structure ParseState where
  headerFound : Bool
  dateCol : ℕ
  yieldCol : ℕ
  acc : List Obs
deriving Repr

/-- Initial loop state (`header_found = False`, no columns, empty data). -/
def initState : ParseState := ⟨false, 0, 0, []⟩

/-- A row that is empty or entirely whitespace (skipped by the loop). -/
def isBlankRow (row : List (List Char)) : Bool :=
  row.isEmpty || row.all (fun c => strip c = [])

/-- Header detection on one row: the date column is the index of the first
cell equal (stripped, uppercased) to `DATE`, the value column the index of
the first cell containing the series code; `none` when either is missing
(the loop then keeps scanning). -/
def headerCols (row : List (List Char)) : Option (ℕ × ℕ) :=
  let upperRow := row.map (fun c => upperS (strip c))
  match upperRow.findIdx? (fun c => c = "DATE".data) with
  | some dCol =>
      match upperRow.findIdx? (fun c => containsSub c seriesCode) with
      | some yCol => some (dCol, yCol)
      | none => none
  | none => none

/-- Discrete extraction of one data row (the `try` block of the loop up to
the date parse): index the date and value cells (an out-of-range index is
a caught `IndexError`), skip blank cells, parse the date, and return it
with the stripped value cell. `none` means the row is silently skipped. -/
def extractRaw (dateCol yieldCol : ℕ) (row : List (List Char)) :
    Option (Date × List Char) :=
  match row[dateCol]?, row[yieldCol]? with
  | some dCell, some yCell =>
      let ds := strip dCell
      let ys := strip yCell
      if ds = [] ∨ ys = [] then none
      else match parse_boe_date ds with
        | some date => some (date, ys)
        | none => none
  | _, _ => none

/-- Full extraction of one data row: the discrete part, then the value
parse, then rounding to four fractional digits. -/
def extractRow (dateCol yieldCol : ℕ) (row : List (List Char)) : Option Obs :=
  match extractRaw dateCol yieldCol row with
  | some (date, ys) =>
      match parseFloatQ ys with
      | some v => some ⟨date, round4 v⟩
      | none => none
  | none => none

/-- One iteration of the `parse_boe_csv` loop: skip blank rows; before the
header is found, treat a row as the header iff some cell equals `DATE` and
some cell contains the series code (otherwise keep scanning); after the
header, extract a data row and append it when extraction succeeds. -/
def processRow (st : ParseState) (row : List (List Char)) : ParseState :=
  if isBlankRow row then st
  else if !st.headerFound then
    match headerCols row with
    | some (dCol, yCol) => ⟨true, dCol, yCol, st.acc⟩
    | none => st
  else
    match extractRow st.dateCol st.yieldCol row with
    | some obs => { st with acc := st.acc ++ [obs] }
    | none => st

/-- Stable insertion of an observation into a date-sorted list: the new
element goes after every element whose date is `≤` its own, matching the
stability of Python's `list.sort`. -/
def insertByDate (x : Obs) : List Obs → List Obs
  | [] => [x]
  | y :: ys => if Date.le y.date x.date then y :: insertByDate x ys else x :: y :: ys

/-- `data_points.sort(key=lambda x: x["date"])`: stable sort ascending by
date. -/
def sortByDate (l : List Obs) : List Obs :=
  l.foldl (fun acc x => insertByDate x acc) []

/-- Rows of string cells as rows of character-list cells. -/
def rowsToChars (rows : List (List String)) : List (List (List Char)) :=
  rows.map (fun r => r.map String.data)

/-- `parse_boe_csv` over the rows produced by `csv.reader`: run the row
loop, then sort the collected observations ascending by date. -/
def parse_boe_csv (rows : List (List String)) : List Obs :=
  sortByDate ((rowsToChars rows).foldl processRow initState).acc

/-- `fetch_and_generate`'s empty-feed check: a parse that yields zero
observations raises `RuntimeError`, anything else flows on. -/
def fetch_and_generate_points (rows : List (List String)) : Except String (List Obs) :=
  let pts := parse_boe_csv rows
  if pts = [] then .error "No data points received from Bank of England API." else .ok pts

/-! ## Source reconciler (`generate_dashboard`, lines 259–293 and 313–319)

The live CNBC quote is embedded with its value and the calendar date of
its `last_time` timestamp (`none` when the timestamp is missing or
unparsable, the caught branch of the `try`). -/

/-- The live benchmark quote, as `generate_dashboard` consumes it. -/
structure LiveQuote where
  yieldVal : ℚ
  lastTime : Option Date
deriving Repr

/-- The reconciled view the dashboard is rendered from: the chart dates,
the (possibly adjusted) chart yields, the reported spread, the
`spread_ok` flag, the out-of-band warning (carrying the computed spread
it prints) and the headline yield. -/
structure ReconciledView where
  dates : List Date
  yields : List ℚ
  spread : ℚ
  spread_ok : Bool
  warning : Option ℚ
  headline : ℚ
deriving Repr

/-- The quote's effective date: the date of its timestamp, falling back to
the series' latest date (`stats["current_date"]`). -/
def effectiveDate (stats : Stats) (lq : LiveQuote) : Date :=
  lq.lastTime.getD stats.current_date

/-- `matched_boe`: nearest-date match of the quote's effective date
against the series, falling back to `stats["current_yield"]` when the
lookup returns nothing. -/
def matchedBoe (points : List Obs) (stats : Stats) (lq : LiveQuote) : ℚ :=
  (find_nearest_value points (effectiveDate stats lq).toOrdinal).getD stats.current_yield

/-- `spread = round(live_data["yield"] - matched_boe, 4)`. -/
def computedSpread (points : List Obs) (stats : Stats) (lq : LiveQuote) : ℚ :=
  round4 (lq.yieldVal - matchedBoe points stats lq)

/-- The fixed spread-validation band `SPREAD_MIN, SPREAD_MAX = 0.40, 1.00`. -/
def SPREAD_MIN : ℚ := 40 / 100

/-- See `SPREAD_MIN`. -/
def SPREAD_MAX : ℚ := 1

/-- The reconciliation core of `generate_dashboard`: with a live quote,
compute the spread against the nearest-date-matched series value and
sanity-check it against the band; within band shift every chart value by
the spread (re-rounded to 4 digits, as the code does), otherwise emit the
warning, zero the spread and keep the chart unadjusted; the headline is
the live value whenever a live quote exists, else the series' latest. -/
def reconcile (points : List Obs) (stats : Stats) (live : Option LiveQuote) :
    ReconciledView :=
  match live with
  | some lq =>
      let spread := computedSpread points stats lq
      if SPREAD_MIN ≤ spread ∧ spread ≤ SPREAD_MAX then
        { dates := points.map (·.date)
          yields := points.map (fun d => round4 (d.yieldVal + spread))
          spread := spread, spread_ok := true, warning := none
          headline := lq.yieldVal }
      else
        { dates := points.map (·.date)
          yields := points.map (·.yieldVal)
          spread := 0, spread_ok := false, warning := some spread
          headline := lq.yieldVal }
  | none =>
      { dates := points.map (·.date)
        yields := points.map (·.yieldVal)
        spread := 0, spread_ok := false, warning := none
        headline := stats.current_yield }

/-! ## Smoothing (`computeSMA` and the partial-window variant of
`updateValueChart`) -/

/-- `computeSMA`: trailing simple moving average; `null` for the first
`window - 1` positions, then the mean of the `window` values ending at
each position. -/
def computeSMA (data : List ℚ) (window : ℕ) : List (Option ℚ) :=
  (List.range data.length).map (fun i =>
    if i < window - 1 then none
    else some (((data.drop (i + 1 - window)).take window).sum / (window : ℚ)))

/-- The historical implied values of `updateValueChart`: for each chart
yield, the pass-through-adjusted property yield and the capitalised
value, with a gap (`null`) where the adjusted yield is non-positive. -/
def impliedValues (yields : List ℚ) (currentGilt rent propYield passThrough : ℚ) :
    List (Option ℚ) :=
  yields.map (fun y =>
    let giltDelta := y - currentGilt
    let adjustedYield := propYield + giltDelta * passThrough
    if adjustedYield ≤ 0 then none
    else some (rent / (adjustedYield / 100)))

/-- The partial-window 30-point moving average of `updateValueChart`:
`null` for the first 29 positions, then the mean of the non-`null` values
among the 30 ending at each position (`null` when all 30 are gaps). -/
def valueSMA30 (vals : List (Option ℚ)) : List (Option ℚ) :=
  (List.range vals.length).map (fun i =>
    if i < 29 then none
    else if (((vals.drop (i - 29)).take 30).filterMap id).length = 0 then none
    else some ((((vals.drop (i - 29)).take 30).filterMap id).sum /
      ((((vals.drop (i - 29)).take 30).filterMap id).length : ℚ)))

/-! ## Valuation model (`recalculate`) -/

/-- The fixed scenario set, in basis points. -/
def scenarioDeltas : List ℤ := [-75, -50, -25, 0, 25, 50, 75]

/-- One row of the scenario table. -/
structure ScenarioRow where
  deltaBps : ℤ
  newYield : ℚ
  newValue : ℚ
  valueDelta : ℚ
  valueDeltaPct : ℚ
  isCurrent : Bool
deriving DecidableEq, Repr

/-- `baseValue = rent / (propYield / 100)`. -/
def base_value (rent propYield : ℚ) : ℚ := rent / (propYield / 100)

/-- Price mode's derived yield `propYield = (rent / price) * 100`. -/
def derived_yield (rent price : ℚ) : ℚ := (rent / price) * 100

/-- The scenario loop of `recalculate`: for each delta, the effective
shift under the pass-through, the new property yield, and — unless that
yield is non-positive, in which case the row is omitted — the new value
and its delta against the base value; the zero-delta row is flagged
`isCurrent` (its change cell renders as a dash). -/
def scenarioRows (rent propYield passThrough : ℚ) : List ScenarioRow :=
  scenarioDeltas.filterMap (fun (deltaBps : ℤ) =>
    let effectiveShift := (deltaBps : ℚ) * passThrough
    let newPropYield := propYield + effectiveShift / 100
    if newPropYield ≤ 0 then none
    else
      let baseValue := base_value rent propYield
      let newValue := rent / (newPropYield / 100)
      some { deltaBps := deltaBps, newYield := newPropYield, newValue := newValue
             valueDelta := newValue - baseValue
             valueDeltaPct := (newValue - baseValue) / baseValue * 100
             isCurrent := deltaBps = 0 })

/-- `recalculate` in yield mode: reject non-positive rent or yield
(the JS falsy/`<= 0` guard), else the base value and the scenario table. -/
def recalc_yield_mode (rent propYield passThrough : ℚ) :
    Option (ℚ × List ScenarioRow) :=
  if rent ≤ 0 ∨ propYield ≤ 0 then none
  else some (base_value rent propYield, scenarioRows rent propYield passThrough)

/-- `recalculate` in price mode: reject non-positive rent or price, derive
the yield from the guide price, then run the common guard and the same
computation on the derived yield. -/
def recalc_price_mode (rent price passThrough : ℚ) :
    Option (ℚ × ℚ × List ScenarioRow) :=
  if rent ≤ 0 ∨ price ≤ 0 then none
  else
    let propYield := derived_yield rent price
    if rent ≤ 0 ∨ propYield ≤ 0 then none
    else some (propYield, base_value rent propYield, scenarioRows rent propYield passThrough)

end GiltTracker

namespace GiltTracker

/-! ## Helper lemmas -/

/-- Round-half-to-even of an integer is that integer. -/
theorem halfEvenInt_intCast (n : ℤ) : halfEvenInt (n : ℚ) = n := by
  unfold halfEvenInt
  rw [Int.floor_intCast]
  norm_num

/-- `round(x, 4)` fixes every multiple of `1/10000`. -/
theorem round4_int_div (k : ℤ) : round4 ((k : ℚ) / 10000) = (k : ℚ) / 10000 := by
  unfold round4
  rw [div_mul_cancel₀ _ (by norm_num : (10000 : ℚ) ≠ 0), halfEvenInt_intCast]

/-- Every output of `round4` is a multiple of `1/10000`. -/
theorem round4_grid (q : ℚ) : ∃ k : ℤ, round4 q = (k : ℚ) / 10000 :=
  ⟨halfEvenInt (q * 10000), rfl⟩

/-- Rounding the sum of two multiples of `1/10000` changes nothing. -/
theorem round4_add_grid (y s : ℚ) (hy : ∃ k : ℤ, y = (k : ℚ) / 10000)
    (hs : ∃ k : ℤ, s = (k : ℚ) / 10000) : round4 (y + s) = y + s := by
  obtain ⟨a, rfl⟩ := hy
  obtain ⟨b, rfl⟩ := hs
  rw [div_add_div_same, ← Int.cast_add, round4_int_div]

/-! ## C7: the non-gap trailing moving average -/

/-- C7. For every numeric input sequence and window size `W ≥ 1`,
`computeSMA` returns a sequence of exactly the input's length whose entry
`i` is absent for `i < W - 1` and otherwise is the arithmetic mean of the
`W` input values at positions `i - W + 1` through `i` (the last `W`
entries of the first `i + 1`). -/
theorem computeSMA_spec (data : List ℚ) (window : ℕ) (hw : 1 ≤ window) :
    (computeSMA data window).length = data.length ∧
    (∀ i, i < data.length → i < window - 1 →
      (computeSMA data window)[i]? = some none) ∧
    (∀ i, i < data.length → window - 1 ≤ i →
      ((data.take (i + 1)).drop (i + 1 - window)).length = window ∧
      (computeSMA data window)[i]? =
        some (some (((data.take (i + 1)).drop (i + 1 - window)).sum / (window : ℚ)))) := by
  refine ⟨by simp [computeSMA], ?_, ?_⟩
  · intro i hi hlt
    simp [computeSMA, List.getElem?_map, List.getElem?_range hi, hlt]
  · intro i hi hge
    have harith : i + 1 - window + window = i + 1 := by omega
    have hwin : (data.drop (i + 1 - window)).take window =
        (data.take (i + 1)).drop (i + 1 - window) := by
      rw [List.take_drop, harith]
    constructor
    · rw [← hwin]
      rw [List.length_take, List.length_drop]
      omega
    · have hnot : ¬ i < window - 1 := by omega
      simp [computeSMA, List.getElem?_map, List.getElem?_range hi, hnot, hwin]

/-- Witness for C7: `computeSMA [1, 2, 3] 2` has length 3, entry 0 absent,
and entry 2 the mean of the last two values. -/
theorem computeSMA_spec_witness :
    (computeSMA [(1 : ℚ), 2, 3] 2).length = 3 ∧
    (computeSMA [(1 : ℚ), 2, 3] 2)[0]? = some none ∧
    (computeSMA [(1 : ℚ), 2, 3] 2)[2]? =
      some (some ((([(1 : ℚ), 2, 3].take 3).drop 1).sum / (2 : ℚ))) := by
  have h := computeSMA_spec [(1 : ℚ), 2, 3] 2 (by norm_num)
  exact ⟨h.1, h.2.1 0 (by norm_num) (by norm_num),
    (h.2.2 2 (by norm_num) (by norm_num)).2⟩

/-! ## C5: the scenario table -/

/-- C5. For positive rent and yield and a pass-through in `[0, 1]`, a
scenario row for delta `d` exists iff the shifted yield
`Y + d·T/100` is positive; every produced row carries the shifted yield,
the recapitalised value, its delta against the base value `R/(Y/100)` and
the percentage delta `100·Δ/V`; the zero-delta row is always present and
is the (dash-rendered) current row. -/
theorem scenarioRows_spec (R Y T : ℚ) (hR : 0 < R) (hY : 0 < Y)
    (hT0 : 0 ≤ T) (hT1 : T ≤ 1) :
    (∀ d ∈ scenarioDeltas,
      ((∃ row ∈ scenarioRows R Y T, row.deltaBps = d) ↔ ¬ Y + (d : ℚ) * T / 100 ≤ 0)) ∧
    (∀ row ∈ scenarioRows R Y T,
      row.newYield = Y + (row.deltaBps : ℚ) * T / 100 ∧
      row.newValue = R / (row.newYield / 100) ∧
      row.valueDelta = row.newValue - R / (Y / 100) ∧
      row.valueDeltaPct = 100 * row.valueDelta / (R / (Y / 100)) ∧
      (row.isCurrent = true ↔ row.deltaBps = 0)) ∧
    (∃ row ∈ scenarioRows R Y T, row.deltaBps = 0 ∧ row.isCurrent = true) := by
  have hrow : ∀ row ∈ scenarioRows R Y T,
      ∃ d ∈ scenarioDeltas, ¬ Y + (d : ℚ) * T / 100 ≤ 0 ∧
        row = { deltaBps := d, newYield := Y + (d : ℚ) * T / 100
                newValue := R / ((Y + (d : ℚ) * T / 100) / 100)
                valueDelta := R / ((Y + (d : ℚ) * T / 100) / 100) - base_value R Y
                valueDeltaPct :=
                  (R / ((Y + (d : ℚ) * T / 100) / 100) - base_value R Y) / base_value R Y * 100
                isCurrent := decide (d = 0) } := by
    intro row hmem
    rw [scenarioRows, List.mem_filterMap] at hmem
    obtain ⟨d, hd, hf⟩ := hmem
    dsimp only at hf
    by_cases hc : Y + (d : ℚ) * T / 100 ≤ 0
    · rw [if_pos hc] at hf
      cases hf
    · rw [if_neg hc] at hf
      injection hf with hf
      subst hf
      exact ⟨d, hd, hc, rfl⟩
  have hmk : ∀ d ∈ scenarioDeltas, ¬ Y + (d : ℚ) * T / 100 ≤ 0 →
      ({ deltaBps := d, newYield := Y + (d : ℚ) * T / 100
         newValue := R / ((Y + (d : ℚ) * T / 100) / 100)
         valueDelta := R / ((Y + (d : ℚ) * T / 100) / 100) - base_value R Y
         valueDeltaPct :=
           (R / ((Y + (d : ℚ) * T / 100) / 100) - base_value R Y) / base_value R Y * 100
         isCurrent := decide (d = 0) } : ScenarioRow) ∈ scenarioRows R Y T := by
    intro d hd hc
    rw [scenarioRows, List.mem_filterMap]
    refine ⟨d, hd, ?_⟩
    dsimp only
    rw [if_neg hc]
  refine ⟨?_, ?_, ?_⟩
  · intro d hd
    constructor
    · rintro ⟨row, hmem, hdb⟩
      obtain ⟨d', _, hc, rfl⟩ := hrow row hmem
      simp only at hdb
      subst hdb
      exact hc
    · intro hc
      exact ⟨_, hmk d hd hc, rfl⟩
  · intro row hmem
    obtain ⟨d, _, hc, rfl⟩ := hrow row hmem
    refine ⟨rfl, rfl, by rw [base_value], ?_, by simp⟩
    show (R / ((Y + (d : ℚ) * T / 100) / 100) - base_value R Y) / base_value R Y * 100 = _
    rw [base_value]
    ring
  · have hc : ¬ Y + ((0 : ℤ) : ℚ) * T / 100 ≤ 0 := by push_neg; simpa using hY
    exact ⟨_, hmk 0 (by decide) hc, rfl, rfl⟩

/-- Witness for C5 at `R = 250000`, `Y = 5.5`, `T = 1/2` (the spec's own
scenario example). -/
theorem scenarioRows_spec_witness :
    (0 : ℚ) < 250000 ∧ (0 : ℚ) < 11 / 2 ∧ (0 : ℚ) ≤ 1 / 2 ∧ (1 : ℚ) / 2 ≤ 1 ∧
    (∃ row ∈ scenarioRows 250000 (11 / 2) (1 / 2), row.deltaBps = 0 ∧ row.isCurrent = true) :=
  ⟨by norm_num, by norm_num, by norm_num, by norm_num,
    (scenarioRows_spec 250000 (11 / 2) (1 / 2) (by norm_num) (by norm_num)
      (by norm_num) (by norm_num)).2.2⟩

/-! ## C8: base valuation and price mode -/

/-- C8. For positive rent the base implied value is `R/(Y/100)`; in price
mode the yield derived from a positive guide price is `100·R/P`, the spec's
example derivation rounds to `5.5556`, and the derived yield is what both
the base value and the scenario table are computed from. -/
theorem recalc_base_and_price_mode (R P Y T : ℚ) (hR : 0 < R) (hP : 0 < P) (hY : 0 < Y) :
    recalc_yield_mode R Y T = some (R / (Y / 100), scenarioRows R Y T) ∧
    derived_yield R P = 100 * R / P ∧
    recalc_price_mode R P T =
      some (derived_yield R P, R / (derived_yield R P / 100),
        scenarioRows R (derived_yield R P) T) ∧
    round4 (derived_yield 250000 4500000) = 55556 / 10000 := by
  have hd : 0 < derived_yield R P := by
    rw [derived_yield]
    positivity
  refine ⟨?_, ?_, ?_, ?_⟩
  · rw [recalc_yield_mode, if_neg (by push_neg; exact ⟨hR, hY⟩), base_value]
  · rw [derived_yield]
    ring
  · rw [recalc_price_mode]
    rw [if_neg (by push_neg; exact ⟨hR, hP⟩)]
    simp only [if_neg (by push_neg; exact ⟨hR, hd⟩ : ¬ (R ≤ 0 ∨ derived_yield R P ≤ 0))]
    rw [base_value]
  · norm_num [derived_yield, round4, halfEvenInt]

/-- Witness for C8 at the spec's example `R = 250000`, `P = 4500000`,
`Y = 5.5`, `T = 1/2`. -/
theorem recalc_base_and_price_mode_witness :
    (0 : ℚ) < 250000 ∧ (0 : ℚ) < 4500000 ∧ (0 : ℚ) < 11 / 2 ∧
    round4 (derived_yield 250000 4500000) = 55556 / 10000 :=
  ⟨by norm_num, by norm_num, by norm_num,
    (recalc_base_and_price_mode 250000 4500000 (11 / 2) (1 / 2)
      (by norm_num) (by norm_num) (by norm_num)).2.2.2⟩

/-! ## C10: the reported spread is zero whenever no adjustment is applied -/

/-- C10. Whenever `spread_applied` is false — no live quote, or the
computed spread out of band — the view's spread is exactly `0`; the
computed out-of-band spread appears only in the warning (which exists
exactly in the live out-of-band case). -/
theorem spread_zero_when_not_applied (points : List Obs) (stats : Stats)
    (live : Option LiveQuote)
    (h : (reconcile points stats live).spread_ok = false) :
    (reconcile points stats live).spread = 0 ∧
    (∀ lq, live = some lq →
      (reconcile points stats live).warning = some (computedSpread points stats lq) ∧
      ¬ (SPREAD_MIN ≤ computedSpread points stats lq ∧
         computedSpread points stats lq ≤ SPREAD_MAX)) ∧
    (live = none → (reconcile points stats live).warning = none) := by
  cases live with
  | none =>
      refine ⟨rfl, ?_, fun _ => rfl⟩
      intro lq hlq
      cases hlq
  | some lq =>
      by_cases hband : SPREAD_MIN ≤ computedSpread points stats lq ∧
          computedSpread points stats lq ≤ SPREAD_MAX
      · rw [reconcile] at h
        rw [if_pos hband] at h
        cases h
      · refine ⟨?_, ?_, fun hnone => by cases hnone⟩
        · rw [reconcile]
          rw [if_neg hband]
        · rintro lq' hlq'
          injection hlq' with hlq'
          subst hlq'
          rw [reconcile]
          rw [if_neg hband]
          exact ⟨rfl, hband⟩

/-- Witness for C10: with no live quote the view reports spread `0` and no
warning. -/
theorem spread_zero_when_not_applied_witness :
    (reconcile [] { current_yield := 0, current_date := ⟨2024, 1, 1⟩, previous_yield := 0
                    daily_change := 0, high_12m := 0, low_12m := 0, high_date := none
                    low_date := none, week_change := none
                    month_change := none, ytd_change := none, data_points_count := 0 }
        none).spread_ok = false ∧
    (reconcile [] { current_yield := 0, current_date := ⟨2024, 1, 1⟩, previous_yield := 0
                    daily_change := 0, high_12m := 0, low_12m := 0, high_date := none
                    low_date := none, week_change := none
                    month_change := none, ytd_change := none, data_points_count := 0 }
        none).spread = 0 :=
  ⟨rfl, (spread_zero_when_not_applied _ _ none rfl).1⟩

/-! ## C3: the week/month/YTD deltas on a non-empty series (code bug)

The claim says the deltas are never `None` on a non-empty series because
the nearest-date lookup always returns a value there.  The code guards
with Python truthiness (`... if week_ago_val else None`), so a looked-up
value of exactly `0.0` — which the lookup does return for the non-empty
series below — also yields `None`.  The theorem evaluates `compute_stats`
at that failing input. -/

/-- C3 (failing-input evaluation). On the one-observation series with
value `0.0`, the nearest-date lookups all return `0.0`, yet the week,
month and YTD deltas all come out `None` instead of the claim's
`round(0 − 0, 4) = 0`. -/
theorem compute_stats_zero_value_deltas_none :
    find_nearest_value [⟨⟨2024, 1, 1⟩, 0⟩] (Date.toOrdinal ⟨2024, 1, 1⟩ - 7) = some 0 ∧
    compute_stats [⟨⟨2024, 1, 1⟩, 0⟩] =
      some { current_yield := 0, current_date := ⟨2024, 1, 1⟩, previous_yield := 0
             daily_change := 0, high_12m := 0, low_12m := 0
             high_date := some ⟨2024, 1, 1⟩, low_date := some ⟨2024, 1, 1⟩
             week_change := none, month_change := none, ytd_change := none
             data_points_count := 1 } := by
  constructor
  · simp [find_nearest_value, nearestStep]
  · simp [compute_stats, find_nearest_value, nearestStep, deltaIfTruthy,
      round4, halfEvenInt]

/-! ## C4: the nearest-date lookup -/

/-- The `find_nearest_value` loop body once an incumbent exists. -/
def nearestStepP (target : ℤ) (acc : ℕ × ℚ) (d : Obs) : ℕ × ℚ :=
  if diffDays target d < acc.1 then (diffDays target d, d.yieldVal) else acc

/-- Once the loop holds an incumbent it never returns to `none`, and the
two step functions agree. -/
theorem foldl_nearestStep_some (target : ℤ) (l : List Obs) :
    ∀ acc : ℕ × ℚ,
      l.foldl (nearestStep target) (some acc) = some (l.foldl (nearestStepP target) acc) := by
  induction l with
  | nil => intro acc; rfl
  | cons d t ih =>
      intro acc
      rw [List.foldl_cons, List.foldl_cons]
      have hstep : nearestStep target (some acc) d = some (nearestStepP target acc d) := by
        cases acc with
        | mk bd bv =>
            rw [nearestStep, nearestStepP]
            split <;> rfl
      rw [hstep]
      exact ih _
/-- Running the incumbent-carrying loop over a list either keeps the
incumbent (which then bounds every element) or returns the first element
strictly better than the incumbent and at least as good as all others. -/
theorem nearest_foldl_cases (target : ℤ) (l : List Obs) :
    ∀ bd bv,
      (l.foldl (nearestStepP target) (bd, bv) = (bd, bv) ∧
        ∀ e ∈ l, bd ≤ diffDays target e) ∨
      (∃ pre d suf, l = pre ++ d :: suf ∧
        l.foldl (nearestStepP target) (bd, bv) = (diffDays target d, d.yieldVal) ∧
        diffDays target d < bd ∧
        (∀ e ∈ l, diffDays target d ≤ diffDays target e) ∧
        (∀ e ∈ pre, diffDays target d < diffDays target e)) := by
  induction l with
  | nil =>
      intro bd bv
      left
      exact ⟨rfl, by simp⟩
  | cons d t ih =>
      intro bd bv
      rw [List.foldl_cons]
      by_cases hlt : diffDays target d < bd
      · rw [show nearestStepP target (bd, bv) d = (diffDays target d, d.yieldVal) from by
          rw [nearestStepP, if_pos hlt]]
        rcases ih (diffDays target d) d.yieldVal with ⟨heq, hall⟩ |
          ⟨pre, d', suf, hsplit, heq, hlt', hall, hpre⟩
        · right
          refine ⟨[], d, t, by simp, heq, hlt, ?_, by simp⟩
          intro e he
          rcases List.mem_cons.mp he with rfl | he
          · exact le_refl _
          · exact hall e he
        · right
          refine ⟨d :: pre, d', suf, by rw [hsplit, List.cons_append], heq, lt_trans hlt' hlt, ?_, ?_⟩
          · intro e he
            rcases List.mem_cons.mp he with rfl | he
            · exact le_of_lt hlt'
            · exact hall e he
          · intro e he
            rcases List.mem_cons.mp he with rfl | he
            · exact hlt'
            · exact hpre e he
      · rw [show nearestStepP target (bd, bv) d = (bd, bv) from by
          rw [nearestStepP, if_neg hlt]]
        push_neg at hlt
        rcases ih bd bv with ⟨heq, hall⟩ | ⟨pre, d', suf, hsplit, heq, hlt', hall, hpre⟩
        · left
          refine ⟨heq, ?_⟩
          intro e he
          rcases List.mem_cons.mp he with rfl | he
          · exact hlt
          · exact hall e he
        · right
          refine ⟨d :: pre, d', suf, by rw [hsplit, List.cons_append], heq, hlt', ?_, ?_⟩
          · intro e he
            rcases List.mem_cons.mp he with rfl | he
            · exact le_of_lt (lt_of_lt_of_le hlt' hlt)
            · exact hall e he
          · intro e he
            rcases List.mem_cons.mp he with rfl | he
            · exact lt_of_lt_of_le hlt' hlt
            · exact hpre e he

/-- C4. On a non-empty series, `find_nearest_value` returns the value of
an observation whose absolute day-difference to the target is minimal over
the whole series, and that observation is the first such in iteration
order: every observation before it has a strictly larger difference
(so on an ascending series the earliest date wins ties). -/
theorem find_nearest_first_minimal (points : List Obs) (target : ℤ)
    (h : points ≠ []) :
    ∃ pre d suf, points = pre ++ d :: suf ∧
      find_nearest_value points target = some d.yieldVal ∧
      (∀ e ∈ points, diffDays target d ≤ diffDays target e) ∧
      (∀ e ∈ pre, diffDays target d < diffDays target e) := by
  match points, h with
  | p :: ps, _ =>
    rw [find_nearest_value, List.foldl_cons,
      show nearestStep target none p = some (diffDays target p, p.yieldVal) from rfl,
      foldl_nearestStep_some]
    rcases nearest_foldl_cases target ps (diffDays target p) p.yieldVal with ⟨heq, hall⟩ |
      ⟨pre, d', suf, hsplit, heq, hlt', hall, hpre⟩
    · refine ⟨[], p, ps, by simp, by simp [heq], ?_, by simp⟩
      intro e he
      rcases List.mem_cons.mp he with rfl | he
      · exact le_refl _
      · exact hall e he
    · refine ⟨p :: pre, d', suf, by rw [hsplit, List.cons_append], by simp [heq], ?_, ?_⟩
      · intro e he
        rcases List.mem_cons.mp he with rfl | he
        · exact le_of_lt hlt'
        · exact hall e he
      · intro e he
        rcases List.mem_cons.mp he with rfl | he
        · exact hlt'
        · exact hpre e he

/-! ## C2: order of the parsed series

The claim says the parsed dates are unique and strictly increasing because
duplicate-date rows are dropped.  The parser drops unparsable rows but
keeps every parseable one and only sorts: two rows with the same date both
survive, refuting uniqueness and strictness.  What does hold for every
input is that the output is sorted with non-decreasing dates. -/

/-- A date is `≤`-comparable from a failed comparison the other way. -/
theorem date_le_of_not_le {a b : Date} (h : ¬ Date.le a b) : Date.le b a := by
  unfold Date.le Date.lt at *
  omega

/-- The head of an insertion is the new element or the old head. -/
theorem insertByDate_head? (x : Obs) (l : List Obs) :
    (insertByDate x l).head? = some x ∨ (insertByDate x l).head? = l.head? := by
  cases l with
  | nil => left; rfl
  | cons y ys =>
      rw [insertByDate]
      split
      · right; rfl
      · left; rfl

/-- Stable insertion preserves non-decreasing date order. -/
theorem chain'_insertByDate (x : Obs) (l : List Obs)
    (hl : List.Chain' (fun a b => Date.le a.date b.date) l) :
    List.Chain' (fun a b => Date.le a.date b.date) (insertByDate x l) := by
  induction l with
  | nil => simp [insertByDate]
  | cons y ys ih =>
      rw [insertByDate]
      split
      case isTrue hle =>
        rw [List.chain'_cons']
        refine ⟨?_, ih (List.chain'_cons'.mp hl).2⟩
        intro z hz
        rcases insertByDate_head? x ys with hh | hh
        · rw [hh] at hz
          simp only [Option.mem_def, Option.some.injEq] at hz
          subst hz
          exact hle
        · rw [hh] at hz
          exact (List.chain'_cons'.mp hl).1 z hz
      case isFalse hnle =>
        rw [List.chain'_cons']
        refine ⟨?_, hl⟩
        intro z hz
        simp only [List.head?_cons, Option.mem_def, Option.some.injEq] at hz
        subst hz
        exact date_le_of_not_le hnle

/-- The insertion-sort fold keeps the accumulator sorted. -/
theorem chain'_sort_foldl (l : List Obs) :
    ∀ acc, List.Chain' (fun a b => Date.le a.date b.date) acc →
      List.Chain' (fun a b => Date.le a.date b.date)
        (l.foldl (fun acc x => insertByDate x acc) acc) := by
  induction l with
  | nil => intro acc h; exact h
  | cons x t ih =>
      intro acc h
      rw [List.foldl_cons]
      exact ih _ (chain'_insertByDate x acc h)

/-- C2 (amended). For every raw feed input, the parsed series is sorted
with non-decreasing dates; rows whose date or value fails to parse are
dropped, but duplicate-date rows are retained, so the dates need not be
unique or strictly increasing. -/
theorem parse_boe_csv_sorted (rows : List (List String)) :
    List.Chain' (fun a b => Date.le a.date b.date) (parse_boe_csv rows) := by
  rw [parse_boe_csv, sortByDate]
  exact chain'_sort_foldl _ [] (by simp)

/-- Counterexample to C2 as stated: a feed with two rows for
`2024-01-01` parses to two observations sharing that date, so the output
dates are neither unique nor strictly increasing. -/
theorem parse_boe_csv_duplicate_dates :
    parse_boe_csv [["DATE", "IUDMNZC"], ["01 Jan 2024", "4.00"], ["01 Jan 2024", "4.10"]] =
      [⟨⟨2024, 1, 1⟩, 4⟩, ⟨⟨2024, 1, 1⟩, 41 / 10⟩] ∧
    ¬ List.Chain' (fun a b => Date.lt a.date b.date)
      (parse_boe_csv [["DATE", "IUDMNZC"], ["01 Jan 2024", "4.00"], ["01 Jan 2024", "4.10"]]) := by
  have hb1 : isBlankRow ["DATE".data, "IUDMNZC".data] = false := by decide
  have hb2 : isBlankRow ["01 Jan 2024".data, "4.00".data] = false := by decide
  have hb3 : isBlankRow ["01 Jan 2024".data, "4.10".data] = false := by decide
  have hh1 : headerCols ["DATE".data, "IUDMNZC".data] = some (0, 1) := by decide
  have he2 : extractRaw 0 1 ["01 Jan 2024".data, "4.00".data] =
      some (⟨2024, 1, 1⟩, "4.00".data) := by decide
  have he3 : extractRaw 0 1 ["01 Jan 2024".data, "4.10".data] =
      some (⟨2024, 1, 1⟩, "4.10".data) := by decide
  have hf2 : parseFloatParts "4.00".data = some ⟨false, 4, 0, 2, 0⟩ := by decide
  have hf3 : parseFloatParts "4.10".data = some ⟨false, 4, 10, 2, 0⟩ := by decide
  have heval : parse_boe_csv
      [["DATE", "IUDMNZC"], ["01 Jan 2024", "4.00"], ["01 Jan 2024", "4.10"]] =
      [⟨⟨2024, 1, 1⟩, 4⟩, ⟨⟨2024, 1, 1⟩, 41 / 10⟩] := by
    simp [parse_boe_csv, rowsToChars, processRow, extractRow, parseFloatQ, partsToQ,
      initState, hb1, hb2, hb3, hh1, he2, he3, hf2, hf3,
      sortByDate, insertByDate, Date.le, Date.lt, round4, halfEvenInt]
    norm_num
  refine ⟨heval, ?_⟩
  rw [heval]
  intro hchain
  have := (List.chain'_cons.mp hchain).1
  simp [Date.lt] at this

/-! ## C9: parser failure semantics -/

/-- Once the header is found, a row whose extraction fails (blank, short,
unparsable date or value) leaves the loop state unchanged. -/
theorem processRow_skip (st : ParseState) (row : List (List Char))
    (hf : st.headerFound = true)
    (he : extractRow st.dateCol st.yieldCol row = none) :
    processRow st row = st := by
  rw [processRow]
  by_cases hb : isBlankRow row
  · rw [if_pos (by simp [hb])]
  · rw [if_neg (by simp [hb]), hf]
    simp [he]

/-- C9. A feed yielding zero observations is exactly the fatal
empty-series error of `fetch_and_generate`; and a malformed row after the
header (one the extractor rejects) is silently skipped: removing it leaves
the parse of the whole feed unchanged, so no individual bad row can abort
the parse. -/
theorem parser_failure_semantics (rows pre suf : List (List String)) (bad : List String)
    (hheader : ((rowsToChars pre).foldl processRow initState).headerFound = true)
    (hbad : extractRow ((rowsToChars pre).foldl processRow initState).dateCol
      ((rowsToChars pre).foldl processRow initState).yieldCol
      (bad.map String.data) = none) :
    (fetch_and_generate_points rows =
        Except.error "No data points received from Bank of England API." ↔
      parse_boe_csv rows = []) ∧
    parse_boe_csv (pre ++ bad :: suf) = parse_boe_csv (pre ++ suf) := by
  constructor
  · by_cases hp : parse_boe_csv rows = []
    · simp [fetch_and_generate_points, hp]
    · simp [fetch_and_generate_points, hp]
  · rw [parse_boe_csv, parse_boe_csv]
    have hsplit : rowsToChars (pre ++ bad :: suf) =
        rowsToChars pre ++ (bad.map String.data) :: rowsToChars suf := by
      simp [rowsToChars]
    have hsplit2 : rowsToChars (pre ++ suf) = rowsToChars pre ++ rowsToChars suf := by
      simp [rowsToChars]
    rw [hsplit, hsplit2, List.foldl_append, List.foldl_append, List.foldl_cons,
      processRow_skip _ _ hheader hbad]

/-- Witness for C9: a concrete feed whose `banana` row is skipped without
affecting the parse. -/
theorem parser_failure_semantics_witness :
    ((rowsToChars [["DATE", "IUDMNZC"]]).foldl processRow initState).headerFound = true ∧
    extractRow ((rowsToChars [["DATE", "IUDMNZC"]]).foldl processRow initState).dateCol
      ((rowsToChars [["DATE", "IUDMNZC"]]).foldl processRow initState).yieldCol
      (["banana", "4.00"].map String.data) = none ∧
    ((fetch_and_generate_points [] =
        Except.error "No data points received from Bank of England API." ↔
      parse_boe_csv [] = []) ∧
    parse_boe_csv ([["DATE", "IUDMNZC"]] ++ ["banana", "4.00"] :: [["01 Jan 2024", "4.00"]]) =
      parse_boe_csv ([["DATE", "IUDMNZC"]] ++ [["01 Jan 2024", "4.00"]])) := by
  have h1 : ((rowsToChars [["DATE", "IUDMNZC"]]).foldl processRow initState).headerFound =
      true := by decide
  have h2 : extractRow ((rowsToChars [["DATE", "IUDMNZC"]]).foldl processRow initState).dateCol
      ((rowsToChars [["DATE", "IUDMNZC"]]).foldl processRow initState).yieldCol
      (["banana", "4.00"].map String.data) = none := by decide
  exact ⟨h1, h2, parser_failure_semantics [] [["DATE", "IUDMNZC"]]
    [["01 Jan 2024", "4.00"]] ["banana", "4.00"] h1 h2⟩

/-! ## C6: historical value projection with partial-window smoothing -/

/-- C6. Each historical yield projects to the capitalised value under the
pass-through-adjusted property yield, with a gap where that yield is
non-positive; the smoothed series is absent before position 29 and from
then on averages exactly the non-absent values of the trailing 30-element
window, itself absent when the whole window is gaps. -/
theorem implied_values_partial_sma_spec
    (yields : List ℚ) (currentGilt rent propYield passThrough : ℚ) :
    (impliedValues yields currentGilt rent propYield passThrough).length = yields.length ∧
    (∀ i, ∀ h : i < yields.length,
      (impliedValues yields currentGilt rent propYield passThrough)[i]? =
        some (if propYield + (yields.get ⟨i, h⟩ - currentGilt) * passThrough ≤ 0 then none
          else some (rent /
            ((propYield + (yields.get ⟨i, h⟩ - currentGilt) * passThrough) / 100)))) ∧
    (∀ vals : List (Option ℚ),
      (valueSMA30 vals).length = vals.length ∧
      (∀ i, i < vals.length → i < 29 → (valueSMA30 vals)[i]? = some none) ∧
      (∀ i, i < vals.length → 29 ≤ i →
        ((vals.take (i + 1)).drop (i - 29)).length = 30 ∧
        (valueSMA30 vals)[i]? =
          some (if ((vals.take (i + 1)).drop (i - 29)).filterMap id = [] then none
            else some ((((vals.take (i + 1)).drop (i - 29)).filterMap id).sum /
              ((((vals.take (i + 1)).drop (i - 29)).filterMap id).length : ℚ))))) := by
  refine ⟨by simp [impliedValues], ?_, ?_⟩
  · intro i h
    rw [impliedValues, List.getElem?_map, List.getElem?_eq_getElem h]
    rfl
  · intro vals
    refine ⟨by simp [valueSMA30], ?_, ?_⟩
    · intro i hi hlt
      simp [valueSMA30, List.getElem?_map, List.getElem?_range hi, hlt]
    · intro i hi hge
      have harith : i - 29 + 30 = i + 1 := by omega
      have hwin : (vals.drop (i - 29)).take 30 = (vals.take (i + 1)).drop (i - 29) := by
        rw [List.take_drop, harith]
      have hnot : ¬ i < 29 := by omega
      constructor
      · rw [← hwin, List.length_take, List.length_drop]
        omega
      · rw [valueSMA30, List.getElem?_map, List.getElem?_range hi]
        simp only [Option.map_some', if_neg hnot, hwin, List.length_eq_zero]

/-! ## C1: reconciliation with a live quote -/

/-- C1. With a non-empty series and a live quote, the spread is the
4-digit rounding of the live value minus the nearest-date-matched series
value; the series is shifted by exactly `+spread` (its values being
4-digit multiples) iff the spread lies in the inclusive `[0.40, 1.00]`
band, with `spread_ok` true, and is passed through unmodified with
`spread_ok` false otherwise; dates and length are always preserved and
the headline is always the live value. -/
theorem reconcile_live_spec (points : List Obs) (stats : Stats) (lq : LiveQuote)
    (hne : points ≠ [])
    (hgrid : ∀ p ∈ points, ∃ k : ℤ, p.yieldVal = (k : ℚ) / 10000) :
    (∃ m, find_nearest_value points (effectiveDate stats lq).toOrdinal = some m ∧
      computedSpread points stats lq = round4 (lq.yieldVal - m)) ∧
    ((reconcile points stats (some lq)).spread_ok = true ↔
      (SPREAD_MIN ≤ computedSpread points stats lq ∧
        computedSpread points stats lq ≤ SPREAD_MAX)) ∧
    ((SPREAD_MIN ≤ computedSpread points stats lq ∧
        computedSpread points stats lq ≤ SPREAD_MAX) →
      (reconcile points stats (some lq)).yields =
        points.map (fun p => p.yieldVal + computedSpread points stats lq)) ∧
    (¬ (SPREAD_MIN ≤ computedSpread points stats lq ∧
        computedSpread points stats lq ≤ SPREAD_MAX) →
      (reconcile points stats (some lq)).yields = points.map (·.yieldVal)) ∧
    (reconcile points stats (some lq)).dates = points.map (·.date) ∧
    (reconcile points stats (some lq)).yields.length = points.length ∧
    (reconcile points stats (some lq)).headline = lq.yieldVal := by
  obtain ⟨m, hm⟩ : ∃ m,
      find_nearest_value points (effectiveDate stats lq).toOrdinal = some m := by
    match points, hne with
    | p :: ps, _ =>
      rw [find_nearest_value, List.foldl_cons,
        show nearestStep (effectiveDate stats lq).toOrdinal none p =
          some (diffDays (effectiveDate stats lq).toOrdinal p, p.yieldVal) from rfl,
        foldl_nearestStep_some]
      exact ⟨_, rfl⟩
  have hspread : computedSpread points stats lq = round4 (lq.yieldVal - m) := by
    rw [computedSpread, matchedBoe, hm, Option.getD_some]
  by_cases hband : SPREAD_MIN ≤ computedSpread points stats lq ∧
      computedSpread points stats lq ≤ SPREAD_MAX
  · refine ⟨⟨m, hm, hspread⟩, ?_, ?_, fun hc => absurd hband hc, ?_, ?_, ?_⟩
    · rw [reconcile]
      rw [if_pos hband]
      simp [hband]
    · intro _
      rw [reconcile]
      rw [if_pos hband]
      show points.map (fun d => round4 (d.yieldVal + computedSpread points stats lq)) = _
      apply List.map_congr_left
      intro p hp
      exact round4_add_grid p.yieldVal (computedSpread points stats lq) (hgrid p hp)
        (by rw [computedSpread]; exact round4_grid _)
    · rw [reconcile]
      rw [if_pos hband]
    · rw [reconcile]
      rw [if_pos hband]
      simp
    · rw [reconcile]
      rw [if_pos hband]
  · refine ⟨⟨m, hm, hspread⟩, ?_, fun hc => absurd hc hband, ?_, ?_, ?_, ?_⟩
    · rw [reconcile]
      rw [if_neg hband]
      simp [hband]
    · intro _
      rw [reconcile]
      rw [if_neg hband]
    · rw [reconcile]
      rw [if_neg hband]
    · rw [reconcile]
      rw [if_neg hband]
      simp
    · rw [reconcile]
      rw [if_neg hband]

/-- Witness for C1: a one-point series with value `4.50` against a live
quote of `5.10` dated the same day; the spread `0.60` is in band. -/
theorem reconcile_live_spec_witness :
    (([⟨⟨2024, 1, 2⟩, 45 / 10⟩] : List Obs) ≠ [] ∧
      (∀ p ∈ ([⟨⟨2024, 1, 2⟩, 45 / 10⟩] : List Obs), ∃ k : ℤ, p.yieldVal = (k : ℚ) / 10000)) ∧
    ((reconcile [⟨⟨2024, 1, 2⟩, 45 / 10⟩]
        { current_yield := 45 / 10, current_date := ⟨2024, 1, 2⟩, previous_yield := 45 / 10
          daily_change := 0, high_12m := 45 / 10, low_12m := 45 / 10, high_date := none
          low_date := none, week_change := none
          month_change := none, ytd_change := none, data_points_count := 1 }
        (some ⟨51 / 10, some ⟨2024, 1, 2⟩⟩)).headline = 51 / 10) := by
  have hne : ([⟨⟨2024, 1, 2⟩, 45 / 10⟩] : List Obs) ≠ [] := by simp
  have hgrid : ∀ p ∈ ([⟨⟨2024, 1, 2⟩, 45 / 10⟩] : List Obs),
      ∃ k : ℤ, p.yieldVal = (k : ℚ) / 10000 := by
    intro p hp
    simp only [List.mem_singleton] at hp
    subst hp
    exact ⟨45000, by norm_num⟩
  exact ⟨⟨hne, hgrid⟩,
    (reconcile_live_spec [⟨⟨2024, 1, 2⟩, 45 / 10⟩]
      { current_yield := 45 / 10, current_date := ⟨2024, 1, 2⟩, previous_yield := 45 / 10
        daily_change := 0, high_12m := 45 / 10, low_12m := 45 / 10, high_date := none
        low_date := none, week_change := none
        month_change := none, ytd_change := none, data_points_count := 1 }
      ⟨51 / 10, some ⟨2024, 1, 2⟩⟩ hne hgrid).2.2.2.2.2.2⟩

/-- Witness for C4 on a concrete two-point series. -/
theorem find_nearest_first_minimal_witness :
    ([⟨⟨2024, 1, 1⟩, 4⟩, ⟨⟨2024, 1, 2⟩, 5⟩] : List Obs) ≠ [] ∧
    (∃ pre d suf,
      ([⟨⟨2024, 1, 1⟩, 4⟩, ⟨⟨2024, 1, 2⟩, 5⟩] : List Obs) = pre ++ d :: suf ∧
      find_nearest_value [⟨⟨2024, 1, 1⟩, 4⟩, ⟨⟨2024, 1, 2⟩, 5⟩] 10 = some d.yieldVal ∧
      (∀ e ∈ ([⟨⟨2024, 1, 1⟩, 4⟩, ⟨⟨2024, 1, 2⟩, 5⟩] : List Obs),
        diffDays 10 d ≤ diffDays 10 e) ∧
      (∀ e ∈ pre, diffDays 10 d < diffDays 10 e)) :=
  ⟨by simp, find_nearest_first_minimal [⟨⟨2024, 1, 1⟩, 4⟩, ⟨⟨2024, 1, 2⟩, 5⟩] 10 (by simp)⟩

end GiltTracker
